import Mathlib

set_option autoImplicit false

namespace DupliScan

/-!  Shallow embedding of the DupliScan repository (dupliscan/core).

Bytes are modelled as `Nat` values below 256, byte sequences as `List Nat`.
The fingerprinting functions of `dupliscan/core/scanner.py` call
`hashlib.sha256`; that primitive is embedded here as a full executable
SHA-256 over `List Nat`, so that the digests of the model are the real
SHA-256 digests. -/

abbrev Byte := Nat

def M32 : Nat := 4294967296

def add32 (a b : Nat) : Nat := (a + b) % M32

def rotr32 (n x : Nat) : Nat := (x / 2 ^ n + x % 2 ^ n * 2 ^ (32 - n)) % M32

def shr32 (n x : Nat) : Nat := x / 2 ^ n

def not32 (x : Nat) : Nat := Nat.xor x (M32 - 1)

def bigSigma0 (x : Nat) : Nat := Nat.xor (rotr32 2 x) (Nat.xor (rotr32 13 x) (rotr32 22 x))

def bigSigma1 (x : Nat) : Nat := Nat.xor (rotr32 6 x) (Nat.xor (rotr32 11 x) (rotr32 25 x))

def smallSigma0 (x : Nat) : Nat := Nat.xor (rotr32 7 x) (Nat.xor (rotr32 18 x) (shr32 3 x))

def smallSigma1 (x : Nat) : Nat := Nat.xor (rotr32 17 x) (Nat.xor (rotr32 19 x) (shr32 10 x))

/-- The 64 SHA-256 round constants. -/
def sha256K : List Nat :=
  [1116352408, 1899447441, 3049323471, 3921009573, 961987163,
   1508970993, 2453635748, 2870763221, 3624381080, 310598401,
   607225278, 1426881987, 1925078388, 2162078206, 2614888103,
   3248222580, 3835390401, 4022224774, 264347078, 604807628,
   770255983, 1249150122, 1555081692, 1996064986, 2554220882,
   2821834349, 2952996808, 3210313671, 3336571891, 3584528711,
   113926993, 338241895, 666307205, 773529912, 1294757372,
   1396182291, 1695183700, 1986661051, 2177026350, 2456956037,
   2730485921, 2820302411, 3259730800, 3345764771, 3516065817,
   3600352804, 4094571909, 275423344, 430227734, 506948616,
   659060556, 883997877, 958139571, 1322822218, 1537002063,
   1747873779, 1955562222, 2024104815, 2227730452, 2361852424,
   2428436474, 2756734187, 3204031479, 3329325298]

/-- Big-endian byte encoding of `v` on `n` bytes. -/
def lenBytesBE : Nat → Nat → List Byte
  | 0, _ => []
  | m + 1, v => v / 2 ^ (8 * m) % 256 :: lenBytesBE m v

/-- SHA-256 message padding: append the 0x80 marker, zero padding and the
64-bit big-endian bit length, reaching a multiple of 64 bytes. -/
def padMessage (bs : List Byte) : List Byte :=
  bs ++ [128] ++ List.replicate ((120 - (bs.length + 1) % 64) % 64) 0
     ++ lenBytesBE 8 (8 * bs.length % 2 ^ 64)

/-- Group a 64-byte block into 16 big-endian 32-bit words. -/
def bytesToWordsBE : List Byte → List Nat
  | b0 :: b1 :: b2 :: b3 :: rest => (((b0 * 256 + b1) * 256 + b2) * 256 + b3) :: bytesToWordsBE rest
  | _ => []

def iterApp {α : Type} (f : α → α) : Nat → α → α
  | 0, a => a
  | n + 1, a => iterApp f n (f a)

/-- One step of the message-schedule extension: append word
`σ1(w[t-2]) + w[t-7] + σ0(w[t-15]) + w[t-16]`. -/
def extendSchedule (ws : List Nat) : List Nat :=
  ws ++ [(smallSigma1 (ws.getD (ws.length - 2) 0) + ws.getD (ws.length - 7) 0 +
          smallSigma0 (ws.getD (ws.length - 15) 0) + ws.getD (ws.length - 16) 0) % M32]

def messageSchedule (block : List Byte) : List Nat :=
  iterApp extendSchedule 48 (bytesToWordsBE block)

structure Sha256State where
  a : Nat
  b : Nat
  c : Nat
  d : Nat
  e : Nat
  f : Nat
  g : Nat
  hh : Nat
  deriving DecidableEq

def sha256InitState : Sha256State :=
  ⟨1779033703, 3144134277, 1013904242, 2773480762,
   1359893119, 2600822924, 528734635, 1541459225⟩

/-- One SHA-256 compression round for round constant and schedule word `kw`. -/
def sha256Round (s : Sha256State) (kw : Nat × Nat) : Sha256State :=
  let t1 := (s.hh + bigSigma1 s.e + Nat.xor (Nat.land s.e s.f) (Nat.land (not32 s.e) s.g)
             + kw.1 + kw.2) % M32
  let t2 := (bigSigma0 s.a + Nat.xor (Nat.land s.a s.b) (Nat.xor (Nat.land s.a s.c) (Nat.land s.b s.c))) % M32
  ⟨(t1 + t2) % M32, s.a, s.b, s.c, (s.d + t1) % M32, s.e, s.f, s.g⟩

/-- Compress one 64-byte block into the running state. -/
def compressBlock (s : Sha256State) (block : List Byte) : Sha256State :=
  let t := (sha256K.zip (messageSchedule block)).foldl sha256Round s
  ⟨add32 s.a t.a, add32 s.b t.b, add32 s.c t.c, add32 s.d t.d,
   add32 s.e t.e, add32 s.f t.f, add32 s.g t.g, add32 s.hh t.hh⟩

/-- Split a list into consecutive chunks of `n` elements (the final chunk may
be shorter), structurally on a fuel argument so that the kernel can compute
it; the fuel never runs out when it starts at the list length and `n` is
positive (all uses below have `n = 65536`). -/
def chunksOfAux {α : Type} (n : Nat) : Nat → List α → List (List α)
  | _, [] => []
  | 0, l => [l]
  | fuel + 1, a :: l => (a :: l).take n :: chunksOfAux n fuel ((a :: l).drop n)

def chunksOf {α : Type} (n : Nat) (l : List α) : List (List α) :=
  chunksOfAux n l.length l

def wordBytesBE (w : Nat) : List Byte := [w / 2 ^ 24 % 256, w / 2 ^ 16 % 256, w / 2 ^ 8 % 256, w % 256]

/-- Full SHA-256: pad, compress the 64-byte blocks, output the 32 digest
bytes big-endian. -/
def sha256 (bs : List Byte) : List Byte :=
  let fin := (chunksOf 64 (padMessage bs)).foldl compressBlock sha256InitState
  wordBytesBE fin.a ++ wordBytesBE fin.b ++ wordBytesBE fin.c ++ wordBytesBE fin.d ++
  wordBytesBE fin.e ++ wordBytesBE fin.f ++ wordBytesBE fin.g ++ wordBytesBE fin.hh

def hexDigitChar (n : Nat) : Char := "0123456789abcdef".toList.getD n '0'

def byteToHexChars (b : Byte) : List Char := [hexDigitChar (b / 16 % 16), hexDigitChar (b % 16)]

/-- Lowercase hexadecimal rendering of a byte sequence (the `hexdigest`
format of `hashlib`). -/
def bytesToHex (bs : List Byte) : String := ⟨(bs.map byteToHexChars).flatten⟩

/-- Model of a `hashlib.sha256()` streaming digest object: `update` absorbs
a block, `hexdigest` is the lowercase hexadecimal SHA-256 of everything
absorbed so far. -/
structure Sha256Ctx where
  absorbed : List Byte

def Sha256Ctx.new : Sha256Ctx := ⟨[]⟩

def Sha256Ctx.update (ctx : Sha256Ctx) (block : List Byte) : Sha256Ctx := ⟨ctx.absorbed ++ block⟩

def Sha256Ctx.hexdigest (ctx : Sha256Ctx) : String := bytesToHex (sha256 ctx.absorbed)

/-- Model of `_calculate_sha256` (scanner.py): the file is opened and read in
`block_size`-byte blocks, each fed to the streaming digest; an IOError while
opening or reading is modelled by `none` file contents and yields `none`. -/
def _calculate_sha256 (file_contents : Option (List Byte)) (block_size : Nat) : Option String :=
  match file_contents with
  | none => none
  | some bs => some (((chunksOf block_size bs).foldl Sha256Ctx.update Sha256Ctx.new).hexdigest)

/-- Model of `_calculate_sha256_from_bytes` (scanner.py): an in-memory
`BytesIO` stream is read in `block_size`-byte blocks; reading from memory
cannot fail, so the result is always a digest. -/
def _calculate_sha256_from_bytes (byte_stream : List Byte) (block_size : Nat) : Option String :=
  some (((chunksOf block_size byte_stream).foldl Sha256Ctx.update Sha256Ctx.new).hexdigest)

/-!  Data model (dupliscan/core/models.py).

The Python `FileInfo` dataclass hashes and compares by `path` only; the
places where that identity matters (the `set` of a `DuplicateGroup`) are
modelled explicitly by path-based deduplication below. -/

structure FileInfo where
  path : String
  size : Nat
  hash_sha256 : Option String
  file_type : Option String
  extension : Option String
  magic_number_details : Option String
  is_in_zip : Bool
  zip_parent_path : Option String
  deriving DecidableEq

/-- A `DuplicateGroup` of models.py; the Python member `set` (whose element
identity is `FileInfo.path`) is modelled as a list without repeated paths. -/
structure DuplicateGroup where
  id : String
  files : List FileInfo
  deriving DecidableEq

/-!  Duplicate indexing (dupliscan/core/duplicate_detector.py). -/

/-- Append `fi` to the bucket of key `hsh`, creating the bucket at the end
if the key is new: the behaviour of `defaultdict(list)` entry update, with
the association list keeping the dict insertion order of keys. -/
def insertBucket (buckets : List (String × List FileInfo)) (hsh : String) (fi : FileInfo) :
    List (String × List FileInfo) :=
  match buckets with
  | [] => [(hsh, [fi])]
  | (k, l) :: rest => if k = hsh then (k, l ++ [fi]) :: rest else (k, l) :: insertBucket rest hsh fi

/-- The body of the first loop of `find_duplicates`: the source guard is
`if file_info.hash_sha256:` — Python truthiness, which skips a record whose
fingerprint is `None` and also one whose fingerprint is the empty string;
every other record goes to its bucket. -/
def hashStep (b : List (String × List FileInfo)) (fi : FileInfo) : List (String × List FileInfo) :=
  match fi.hash_sha256 with
  | some hsh => if hsh = "" then b else insertBucket b hsh fi
  | none => b

/-- The first loop of `find_duplicates`: bucket every record carrying a
fingerprint under its `hash_sha256`. -/
def buildHashes (files : List FileInfo) : List (String × List FileInfo) :=
  files.foldl hashStep []

/-- Drop every record whose `path` equals `p`. -/
def removePath (p : String) : List FileInfo → List FileInfo
  | [] => []
  | fi :: rest => if fi.path = p then removePath p rest else fi :: removePath p rest

/-- Model of `set(file_list)` on `FileInfo` values: Python set insertion
keeps the first element inserted for each `path` (the dataclass hashes and
compares by `path`).  Recursion is structural on a fuel argument so that
the kernel can compute it; starting the fuel at the list length it never
runs out, since removal only shortens the tail. -/
def dedupByPathAux : Nat → List FileInfo → List FileInfo
  | _, [] => []
  | 0, l => l
  | fuel + 1, fi :: rest => fi :: dedupByPathAux fuel (removePath fi.path rest)

def dedupByPath (l : List FileInfo) : List FileInfo := dedupByPathAux l.length l

/-- The body of the second loop of `find_duplicates`: a bucket with more
than one entry whose path-deduplicated member set still has more than one
entry appends a group. -/
def groupStep (duplicate_groups : List DuplicateGroup) (bucket : String × List FileInfo) :
    List DuplicateGroup :=
  if bucket.2.length > 1 then
    let unique_files_in_group := dedupByPath bucket.2
    if unique_files_in_group.length > 1 then
      duplicate_groups ++ [⟨bucket.1, unique_files_in_group⟩]
    else duplicate_groups
  else duplicate_groups

/-- Model of `find_duplicates` (duplicate_detector.py): bucket by
fingerprint, then emit, in dict insertion order, one group per bucket that
still has more than one member after path deduplication. -/
def find_duplicates (files : List FileInfo) : List DuplicateGroup :=
  (buildHashes files).foldl groupStep []

/-- The group a single bucket contributes, if any. -/
def groupOfBucket (bucket : String × List FileInfo) : Option DuplicateGroup :=
  if bucket.2.length > 1 then
    if (dedupByPath bucket.2).length > 1 then some ⟨bucket.1, dedupByPath bucket.2⟩ else none
  else none

/-- One record appends its fingerprint to the first-occurrence list if the
fingerprint is truthy (present and nonempty, mirroring the source guard)
and new. -/
def occStep (acc : List String) (fi : FileInfo) : List String :=
  match fi.hash_sha256 with
  | some hsh => if hsh = "" then acc else (if hsh ∈ acc then acc else acc ++ [hsh])
  | none => acc

/-- The fingerprints of `files` in order of first occurrence: the key order
of the Python dict built by `find_duplicates`. -/
def fingerprintFirstOccurrences (files : List FileInfo) : List String :=
  files.foldl occStep []

/-- First bucket stored under key `hsh` (empty if the key is absent). -/
def bucketOf (buckets : List (String × List FileInfo)) (hsh : String) : List FileInfo :=
  match buckets with
  | [] => []
  | (k, l) :: rest => if k = hsh then l else bucketOf rest hsh

def bucketKeys (buckets : List (String × List FileInfo)) : List String := buckets.map Prod.fst

/-!  Path helpers (`os.path.basename`, `os.path.splitext`, lowercasing) as
used by scanner.py. -/

/-- Index of the last occurrence of `c` in `cs`, if any. -/
def lastIdxOf (c : Char) (cs : List Char) : Option Nat :=
  match cs.reverse.findIdx? (· == c) with
  | some i => some (cs.length - 1 - i)
  | none => none

/-- The extension part of `os.path.splitext(p)`: the suffix starting at the
last dot that lies after the last path separator, provided the name part
before that dot is not made of dots only (so ".bashrc" has no extension). -/
def pySplitextExt (p : String) : String :=
  let cs := p.toList
  let nameStart : Nat :=
    match lastIdxOf '/' cs with
    | some i => i + 1
    | none => 0
  match lastIdxOf '.' cs with
  | none => ""
  | some d =>
    if d < nameStart then ""
    else if ((cs.drop nameStart).take (d - nameStart)).any (· != '.') then ⟨cs.drop d⟩
    else ""

/-- `os.path.basename`: the part after the last separator. -/
def basenameOf (p : String) : String :=
  let cs := p.toList
  match lastIdxOf '/' cs with
  | some i => ⟨cs.drop (i + 1)⟩
  | none => p

/-- scanner.py computes `extension = file_ext.lower() if file_ext else None`
from the splitext result. -/
def extOf (name : String) : Option String :=
  let e := pySplitextExt name
  if e = "" then none else some e.toLower

/-!  Python dict model: an association list in key insertion order;
assignment `d[k] = v` overwrites in place or appends a new key at the
end, and `d.update(e)` folds assignments of `e` over `d`. -/

def dictInsert (d : List (String × String)) (k v : String) : List (String × String) :=
  match d with
  | [] => [(k, v)]
  | (k0, v0) :: rest => if k0 = k then (k0, v) :: rest else (k0, v0) :: dictInsert rest k v

def dictUpdate (d e : List (String × String)) : List (String × String) :=
  e.foldl (fun acc kv => dictInsert acc kv.1 kv.2) d

/-!  Scan state (the mutable dict threaded through scanner.py, initialized
in dupliscan_cli.py) and the filesystem facts the scanner consults. -/

structure ScanState where
  root_dir : String
  report_output_path : String
  collected_file_paths_for_scan_phase : List String
  pending_file_paths_idx : Nat
  processed_disk_files : List FileInfo
  scan_errors : List (String × String)
  zip_files_to_scan_info : List FileInfo
  zip_files_to_scan_info_collected : Bool
  pending_zip_info_idx : Nat
  files_from_zips_accumulator : List FileInfo
  zip_scan_errors : List (String × String)
  deriving DecidableEq

/-- The filesystem as seen by scanner.py: `walk_files` is the flattened
`os.walk` enumeration, `access_read` is `os.access(p, os.R_OK)`, `islink`
is `os.path.islink`, `getsize` is `os.path.getsize` (`error` carries the
OSError text), `read_file` gives the byte contents (`none` models an
IOError while opening or reading), `path_exists` is `os.path.exists`. -/
structure DiskFS where
  walk_files : String → List String
  access_read : String → Bool
  islink : String → Bool
  getsize : String → Except String Nat
  read_file : String → Option (List Byte)
  path_exists : String → Bool

/-- The loop body of `scan_directory_recursive_resumable` for one path:
unreadable paths get a "Permission denied" error entry, symlinks are
skipped, otherwise the file is sized, hashed and appended as a record (a
sizing error or hashing failure becomes an error entry instead). -/
def processDiskUnit (fs : DiskFS) (st : ScanState) (file_path : String) : ScanState :=
  if fs.access_read file_path = false then
    { st with scan_errors := dictInsert st.scan_errors file_path ("Permission denied") }
  else if fs.islink file_path = true then
    st
  else
    match fs.getsize file_path with
    | .error e => { st with scan_errors := dictInsert st.scan_errors file_path e }
    | .ok file_size =>
      match _calculate_sha256 (fs.read_file file_path) 65536 with
      | none =>
        { st with scan_errors := dictInsert st.scan_errors file_path ("Could not calculate hash (IOError)") }
      | some file_hash =>
        { st with processed_disk_files := st.processed_disk_files ++
            [{ path := file_path, size := file_size, hash_sha256 := some file_hash,
               file_type := none, extension := extOf (basenameOf file_path),
               magic_number_details := none, is_in_zip := false, zip_parent_path := none }] }

/-- The shared resumable loop skeleton of both phase loops in scanner.py:
starting at cursor `i`, poll the cancellation predicate before each unit;
when it fires, store the current cursor and stop; otherwise process the
unit and advance.  The second component is the list of indices of the
units actually processed in this invocation. -/
def phaseLoopAux {α : Type} (setCursor : ScanState → Nat → ScanState)
    (step : ScanState → α → ScanState) (total : Nat) (cancel : Nat → Bool) :
    List α → Nat → ScanState → ScanState × List Nat
  | [], _, st => (setCursor st total, [])
  | a :: rest, i, st =>
    if cancel i then (setCursor st i, [])
    else
      let res := phaseLoopAux setCursor step total cancel rest (i + 1) (step st a)
      (res.1, i :: res.2)

def phaseLoop {α : Type} (setCursor : ScanState → Nat → ScanState) (step : ScanState → α → ScanState)
    (work : List α) (cancel : Nat → Bool) (i : Nat) (st : ScanState) : ScanState × List Nat :=
  phaseLoopAux setCursor step work.length cancel (work.drop i) i st

/-- The iteration part of `scan_directory_recursive_resumable`, over the
materialized disk work list, with cursor `pending_file_paths_idx`. -/
def diskScanLoop (fs : DiskFS) (paths : List String) (cancel : Nat → Bool) (i : Nat)
    (st : ScanState) : ScanState × List Nat :=
  phaseLoop (fun s j => { s with pending_file_paths_idx := j }) (processDiskUnit fs) paths cancel i st

/-- The materialization step of `scan_directory_recursive_resumable`: the
guard is Python truthiness of `collected_file_paths_for_scan_phase`, so the
walk runs (and the cursor resets) whenever the stored list is empty. -/
def materializeDiskPhase (fs : DiskFS) (st : ScanState) : ScanState :=
  if st.collected_file_paths_for_scan_phase.isEmpty then
    { st with collected_file_paths_for_scan_phase := fs.walk_files st.root_dir,
              pending_file_paths_idx := 0 }
  else st

/-- Model of `scan_directory_recursive_resumable`: materialize the work
list if the guard says so, then iterate from the stored cursor.  Also
returns the ghost trace of processed indices. -/
def scan_directory_recursive_resumable (fs : DiskFS) (cancel : Nat → Bool) (st : ScanState) :
    ScanState × List Nat :=
  let st1 := materializeDiskPhase fs st
  diskScanLoop fs st1.collected_file_paths_for_scan_phase cancel st1.pending_file_paths_idx st1

/-!  Archive expansion (`_scan_single_zip_archive`). -/

/-- One archive member as seen through `zipfile`: name, directory flag,
uncompressed size, and the outcome of reading it fully (`error` carries the
exception text of a failed `open`/`read`). -/
instance exceptDecEq {ε α : Type} [DecidableEq ε] [DecidableEq α] : DecidableEq (Except ε α) :=
  fun x y =>
    match x, y with
    | .ok a, .ok b => if h : a = b then .isTrue (by rw [h]) else .isFalse (by simp [h])
    | .error a, .error b => if h : a = b then .isTrue (by rw [h]) else .isFalse (by simp [h])
    | .ok _, .error _ => .isFalse (by simp)
    | .error _, .ok _ => .isFalse (by simp)

structure ZipEntry where
  filename : String
  is_dir : Bool
  file_size : Nat
  read_bytes : Except String (List Byte)
  deriving DecidableEq

/-- The archive side of the filesystem: `is_zipfile` is
`zipfile.is_zipfile`, and `open_zip` is opening the archive and listing its
members (`error` carries the text of a `BadZipFile` or other exception
raised while opening or listing). -/
structure ZipFS where
  is_zipfile : String → Bool
  open_zip : String → Except String (List ZipEntry)

def exceptIsOk {ε α : Type} : Except ε α → Bool
  | .ok _ => true
  | .error _ => false

def exceptErrMsg : Except String (List Byte) → String
  | .error e => e
  | .ok _ => ""

def exceptBytes : Except String (List Byte) → List Byte
  | .ok bs => bs
  | .error _ => []

/-- The record emitted for a successfully read archive member. -/
def zipRecordOf (zip_file_path : String) (m : ZipEntry) : FileInfo :=
  { path := m.filename, size := m.file_size,
    hash_sha256 := _calculate_sha256_from_bytes (exceptBytes m.read_bytes) 65536,
    file_type := none, extension := extOf m.filename,
    magic_number_details := none, is_in_zip := true, zip_parent_path := some zip_file_path }

/-- The per-member body of `_scan_single_zip_archive`: skip directories,
record a read failure under the key `container_path ++ "/" ++ entry_name`
and continue, and otherwise fingerprint the member bytes and append a
record (the hashing-failure branch mirrors the dead `None` check of the
source, since hashing in-memory bytes cannot fail). -/
def zipEntryStep (zip_file_path : String) (acc : List FileInfo × List (String × String))
    (m : ZipEntry) : List FileInfo × List (String × String) :=
  if m.is_dir then acc
  else
    match m.read_bytes with
    | .error e =>
      (acc.1,
       dictInsert acc.2 (zip_file_path ++ "/" ++ m.filename) ("Error processing file in zip: " ++ e))
    | .ok content_bytes =>
      match _calculate_sha256_from_bytes content_bytes 65536 with
      | none =>
        (acc.1,
         dictInsert acc.2 (zip_file_path ++ "/" ++ m.filename) ("Could not calculate hash (IOError in zip)"))
      | some _ => (acc.1 ++ [zipRecordOf zip_file_path m], acc.2)

/-- Model of `_scan_single_zip_archive`: a failed container check yields a
single container-keyed error and no records; a failure opening or listing
the archive likewise; otherwise the members are processed one by one. -/
def _scan_single_zip_archive (zfs : ZipFS) (zip_file_path : String) :
    List FileInfo × List (String × String) :=
  if zfs.is_zipfile zip_file_path = false then
    ([], [(zip_file_path, "Not a valid ZIP file or corrupted.")])
  else
    match zfs.open_zip zip_file_path with
    | .error e => ([], [(zip_file_path, e)])
    | .ok member_info_list => member_info_list.foldl (zipEntryStep zip_file_path) ([], [])

/-- A disk record is picked for the archive phase when its extension is
".zip", the path still exists and the container check passes. -/
def isZipCandidate (dfs : DiskFS) (zfs : ZipFS) (fi : FileInfo) : Bool :=
  fi.extension == some ".zip" && dfs.path_exists fi.path && zfs.is_zipfile fi.path

/-- The materialization step of `add_zip_contents_to_scan_resumable`: the
guard is the explicit boolean `zip_files_to_scan_info_collected`, so a
materialized-but-empty work list is not re-materialized. -/
def materializeZipPhase (dfs : DiskFS) (zfs : ZipFS) (st : ScanState) : ScanState :=
  if st.zip_files_to_scan_info_collected = false then
    { st with zip_files_to_scan_info := st.processed_disk_files.filter (isZipCandidate dfs zfs),
              pending_zip_info_idx := 0,
              zip_files_to_scan_info_collected := true }
  else st

/-- The loop body of `add_zip_contents_to_scan_resumable` for one archive:
an unreadable archive gets a "Permission denied" error, otherwise the
archive is expanded, its records appended and its errors merged. -/
def processZipUnit (dfs : DiskFS) (zfs : ZipFS) (st : ScanState) (zip_file_info : FileInfo) :
    ScanState :=
  if dfs.access_read zip_file_info.path = false then
    { st with zip_scan_errors :=
        dictInsert st.zip_scan_errors zip_file_info.path ("Permission denied to read ZIP.") }
  else
    let res := _scan_single_zip_archive zfs zip_file_info.path
    { st with files_from_zips_accumulator := st.files_from_zips_accumulator ++ res.1,
              zip_scan_errors := dictUpdate st.zip_scan_errors res.2 }

/-- The iteration part of `add_zip_contents_to_scan_resumable`, with cursor
`pending_zip_info_idx`. -/
def zipScanLoop (dfs : DiskFS) (zfs : ZipFS) (zips : List FileInfo) (cancel : Nat → Bool)
    (i : Nat) (st : ScanState) : ScanState × List Nat :=
  phaseLoop (fun s j => { s with pending_zip_info_idx := j }) (processZipUnit dfs zfs) zips cancel i st

/-- Model of `add_zip_contents_to_scan_resumable`. -/
def add_zip_contents_to_scan_resumable (dfs : DiskFS) (zfs : ZipFS) (cancel : Nat → Bool)
    (st : ScanState) : ScanState × List Nat :=
  let st1 := materializeZipPhase dfs zfs st
  zipScanLoop dfs zfs st1.zip_files_to_scan_info cancel st1.pending_zip_info_idx st1

/-!  Checkpoint store (dupliscan/core/state_manager.py).  The durable
location holds no file, a blob that unpickles, or a corrupt blob. -/

inductive CheckpointBlob where
  | absent : CheckpointBlob
  | corrupt : CheckpointBlob
  | good : ScanState → CheckpointBlob
  deriving DecidableEq

/-- The possible outcomes of the guarded write in `save_scan_state`: the
write succeeds, opening the file fails (the prior blob survives), or the
dump fails after the open truncated the file (the blob is corrupt).  The
source catches every exception and only prints, so each outcome returns a
store state and none escalates. -/
inductive SaveOutcome where
  | writeOk : SaveOutcome
  | openFail : SaveOutcome
  | dumpFail : SaveOutcome
  deriving DecidableEq

/-- Model of `save_scan_state`. -/
def save_scan_state (outcome : SaveOutcome) (state : ScanState) (store : CheckpointBlob) :
    CheckpointBlob :=
  match outcome with
  | .writeOk => .good state
  | .openFail => store
  | .dumpFail => .corrupt

/-- Model of `load_scan_state`: a missing file returns `None` before any
read is attempted, and any exception while reading or unpickling is caught
and also returns `None`. -/
def load_scan_state (store : CheckpointBlob) : Option ScanState :=
  match store with
  | .absent => none
  | .corrupt => none
  | .good s => some s

/-- Model of `delete_scan_state`: a missing file is only reported, and a
failing `os.remove` (flag `removeOk = false`) is caught, leaving the blob. -/
def delete_scan_state (removeOk : Bool) (store : CheckpointBlob) : CheckpointBlob :=
  match store with
  | .absent => .absent
  | s => if removeOk then .absent else s

/-!  Entry classification for archive members, and concrete fixtures used
by the claim instances below. -/

/-- A member that `_scan_single_zip_archive` turns into a record: not a
directory, and its read succeeds. -/
def zipOkEntry (m : ZipEntry) : Bool := !m.is_dir && exceptIsOk m.read_bytes

/-- A member that `_scan_single_zip_archive` turns into an error entry: not
a directory, and its read raises. -/
def zipFailEntry (m : ZipEntry) : Bool := !m.is_dir && !(exceptIsOk m.read_bytes)

/-- Records whose fingerprints arrive in reverse lexicographic order: two
duplicate pairs, `"hb"` first. -/
def filesC9 : List FileInfo :=
  [⟨"p1", 1, some "hb", none, none, none, false, none⟩,
   ⟨"p2", 1, some "hb", none, none, none, false, none⟩,
   ⟨"q1", 1, some "ha", none, none, none, false, none⟩,
   ⟨"q2", 1, some "ha", none, none, none, false, none⟩]

/-- A filesystem on which every path is a readable symlink. -/
def fsAllSymlinks : DiskFS :=
  ⟨fun _ => [], fun _ => true, fun _ => true, fun _ => Except.error "", fun _ => none, fun _ => false⟩

/-- A filesystem on which every path is an unreadable symlink (a broken
symlink fails `os.access` because the access check follows the link). -/
def fsDeniedSymlinks : DiskFS :=
  ⟨fun _ => [], fun _ => false, fun _ => true, fun _ => Except.error "", fun _ => none, fun _ => false⟩

/-- A filesystem whose walk finds exactly one file. -/
def fsWalkOne : DiskFS :=
  ⟨fun _ => ["f"], fun _ => true, fun _ => false, fun _ => Except.error "", fun _ => none, fun _ => false⟩

/-- An archive view on which no path is a valid container. -/
def zfsNone : ZipFS := ⟨fun _ => false, fun _ => Except.error ""⟩

/-- A fresh scan state, as dupliscan_cli.py initializes it (empty work
lists, zero cursors, zip work list not yet collected). -/
def stEmpty : ScanState := ⟨"root", "out", [], 0, [], [], [], false, 0, [], []⟩

/-- A state whose disk work list is materialized and nonempty and whose zip
work list is materialized (possibly empty). -/
def stMat : ScanState := ⟨"root", "out", ["f"], 1, [], [], [], true, 0, [], []⟩

/-- A state mid-scan: three collected disk paths, two collected archives. -/
def stW : ScanState :=
  ⟨"root", "out", ["x", "y", "z"], 0, [], [],
   [⟨"z1.zip", 0, none, none, some ".zip", none, false, none⟩,
    ⟨"z2.zip", 0, none, none, some ".zip", none, false, none⟩], true, 0, [], []⟩

/-- Three archive members, the middle one unreadable. -/
def centriesC5 : List ZipEntry :=
  [⟨"good1.txt", false, 2, Except.ok [1, 2]⟩,
   ⟨"bad.txt", false, 5, Except.error "read error"⟩,
   ⟨"good2.txt", false, 1, Except.ok [3]⟩]

/-- An archive view holding `centriesC5` at every path. -/
def czfsC5 : ZipFS := ⟨fun _ => true, fun _ => Except.ok centriesC5⟩

/-!  Lemmas about the duplicate indexer. -/

theorem foldl_groupStep_eq (bl : List (String × List FileInfo)) :
    ∀ acc : List DuplicateGroup, bl.foldl groupStep acc = acc ++ bl.filterMap groupOfBucket := by
  induction bl with
  | nil => simp
  | cons b t ih =>
    intro acc
    simp only [List.foldl_cons, List.filterMap_cons]
    by_cases h1 : b.2.length > 1
    · by_cases h2 : (dedupByPath b.2).length > 1
      · simp [groupStep, groupOfBucket, h1, h2, ih]
      · simp [groupStep, groupOfBucket, h1, h2, ih]
    · simp [groupStep, groupOfBucket, h1, ih]

theorem find_duplicates_eq_filterMap (files : List FileInfo) :
    find_duplicates files = (buildHashes files).filterMap groupOfBucket := by
  simpa [find_duplicates] using foldl_groupStep_eq (buildHashes files) []

theorem bucketOf_insertBucket (b : List (String × List FileInfo)) (hsh k : String) (fi : FileInfo) :
    bucketOf (insertBucket b hsh fi) k =
      if k = hsh then bucketOf b hsh ++ [fi] else bucketOf b k := by
  induction b with
  | nil =>
    by_cases hk : k = hsh
    · simp [insertBucket, bucketOf, hk]
    · simp [insertBucket, bucketOf, hk, Ne.symm hk]
  | cons p rest ih =>
    obtain ⟨k0, l0⟩ := p
    by_cases h0 : k0 = hsh
    · subst h0
      by_cases hk : k = k0
      · simp [insertBucket, bucketOf, hk]
      · simp [insertBucket, bucketOf, hk, Ne.symm hk]
    · by_cases hk : k0 = k
      · subst hk
        have : ¬ k0 = hsh := h0
        simp [insertBucket, bucketOf, h0, Ne.symm h0]
      · simp [insertBucket, bucketOf, h0, hk, ih]

theorem bucketOf_foldl_hashStep (files : List FileInfo) (hsh : String) (hne : hsh ≠ "") :
    ∀ b : List (String × List FileInfo),
      bucketOf (files.foldl hashStep b) hsh =
        bucketOf b hsh ++ files.filter (fun fi => fi.hash_sha256 == some hsh) := by
  induction files with
  | nil => simp [List.filter]
  | cons fi t ih =>
    intro b
    simp only [List.foldl_cons, List.filter_cons]
    cases hfi : fi.hash_sha256 with
    | none => rw [show hashStep b fi = b from by simp [hashStep, hfi]]; simp [ih, hfi]
    | some h2 =>
      by_cases hemp : h2 = ""
      · rw [show hashStep b fi = b from by simp [hashStep, hfi, hemp]]
        simp [ih, hfi, hemp, Ne.symm hne]
      · rw [show hashStep b fi = insertBucket b h2 fi from by simp [hashStep, hfi, hemp]]
        by_cases he : h2 = hsh
        · subst he
          simp [ih, bucketOf_insertBucket, hfi]
        · simp [ih, bucketOf_insertBucket, hfi, he, Ne.symm he]

theorem bucketOf_buildHashes (files : List FileInfo) (hsh : String) (hne : hsh ≠ "") :
    bucketOf (buildHashes files) hsh = files.filter (fun fi => fi.hash_sha256 == some hsh) := by
  simpa [buildHashes, bucketOf] using bucketOf_foldl_hashStep files hsh hne []

theorem bucketKeys_insertBucket (b : List (String × List FileInfo)) (hsh : String) (fi : FileInfo) :
    bucketKeys (insertBucket b hsh fi) =
      if hsh ∈ bucketKeys b then bucketKeys b else bucketKeys b ++ [hsh] := by
  induction b with
  | nil => simp [insertBucket, bucketKeys]
  | cons p rest ih =>
    obtain ⟨k0, l0⟩ := p
    by_cases h0 : k0 = hsh
    · simp [insertBucket, bucketKeys, h0]
    · have hins : insertBucket ((k0, l0) :: rest) hsh fi = (k0, l0) :: insertBucket rest hsh fi := by
        simp [insertBucket, h0]
      have hcons : bucketKeys ((k0, l0) :: rest) = k0 :: bucketKeys rest := rfl
      rw [hins,
          show bucketKeys ((k0, l0) :: insertBucket rest hsh fi) =
            k0 :: bucketKeys (insertBucket rest hsh fi) from rfl,
          ih, hcons]
      by_cases hm : hsh ∈ bucketKeys rest
      · rw [if_pos hm, if_pos (List.mem_cons_of_mem _ hm)]
      · rw [if_neg hm, if_neg ?hc, List.cons_append]
        case hc =>
          intro hc
          rcases List.mem_cons.mp hc with h | h
          · exact h0 h.symm
          · exact hm h

theorem bucketKeys_buildHashes_nodup (files : List FileInfo) :
    (bucketKeys (buildHashes files)).Nodup := by
  suffices h : ∀ b : List (String × List FileInfo), (bucketKeys b).Nodup →
      (bucketKeys (files.foldl hashStep b)).Nodup by
    exact h [] (by simp [bucketKeys])
  induction files with
  | nil => intro b hb; simpa using hb
  | cons fi t ih =>
    intro b hb
    simp only [List.foldl_cons]
    apply ih
    cases hfi : fi.hash_sha256 with
    | none => simpa [hashStep, hfi] using hb
    | some h2 =>
      by_cases hemp : h2 = ""
      · rw [show hashStep b fi = b from by simp [hashStep, hfi, hemp]]
        exact hb
      · rw [show hashStep b fi = insertBucket b h2 fi from by simp [hashStep, hfi, hemp]]
        rw [bucketKeys_insertBucket]
        by_cases hm : h2 ∈ bucketKeys b
        · simpa [hm] using hb
        · simp [hm, List.nodup_append, hb]

theorem bucketOf_eq_of_mem (b : List (String × List FileInfo))
    (hnd : (bucketKeys b).Nodup) (hsh : String) (l : List FileInfo)
    (hm : (hsh, l) ∈ b) : bucketOf b hsh = l := by
  induction b with
  | nil => simp at hm
  | cons p rest ih =>
    obtain ⟨k0, l0⟩ := p
    simp only [bucketKeys, List.map_cons, List.nodup_cons] at hnd
    rcases List.mem_cons.mp hm with heq | ht
    · injection heq with hk hl
      subst hk
      subst hl
      simp [bucketOf]
    · have hne : k0 ≠ hsh := by
        intro h
        exact hnd.1 (h ▸ (List.mem_map.mpr ⟨(hsh, l), ht, rfl⟩))
      simp only [bucketOf, if_neg hne]
      exact ih hnd.2 ht

theorem mem_of_bucketOf_ne_nil (b : List (String × List FileInfo)) (hsh : String)
    (h : bucketOf b hsh ≠ []) : (hsh, bucketOf b hsh) ∈ b := by
  induction b with
  | nil => simp [bucketOf] at h
  | cons p rest ih =>
    obtain ⟨k0, l0⟩ := p
    by_cases h0 : k0 = hsh
    · subst h0; simp [bucketOf]
    · rw [show bucketOf ((k0, l0) :: rest) hsh = bucketOf rest hsh from by simp [bucketOf, h0]] at h ⊢
      exact List.mem_cons_of_mem _ (ih h)

theorem mem_removePath (p : String) (l : List FileInfo) (x : FileInfo) :
    x ∈ removePath p l ↔ x ∈ l ∧ x.path ≠ p := by
  induction l with
  | nil => simp [removePath]
  | cons a t ih =>
    by_cases ha : a.path = p
    · rw [show removePath p (a :: t) = removePath p t from by simp [removePath, ha], ih]
      constructor
      · rintro ⟨hx, hp⟩
        exact ⟨List.mem_cons_of_mem _ hx, hp⟩
      · rintro ⟨hx, hp⟩
        rcases List.mem_cons.mp hx with rfl | hx
        · exact absurd ha hp
        · exact ⟨hx, hp⟩
    · rw [show removePath p (a :: t) = a :: removePath p t from by simp [removePath, ha]]
      constructor
      · intro hx
        rcases List.mem_cons.mp hx with rfl | hx
        · exact ⟨List.mem_cons_self .., ha⟩
        · obtain ⟨h1, h2⟩ := ih.mp hx
          exact ⟨List.mem_cons_of_mem _ h1, h2⟩
      · rintro ⟨hx, hp⟩
        rcases List.mem_cons.mp hx with rfl | hx
        · exact List.mem_cons_self ..
        · exact List.mem_cons_of_mem _ (ih.mpr ⟨hx, hp⟩)

theorem removePath_length_le (p : String) (l : List FileInfo) :
    (removePath p l).length ≤ l.length := by
  induction l with
  | nil => simp [removePath]
  | cons a t ih =>
    simp only [removePath]
    split
    · exact Nat.le_succ_of_le ih
    · simpa using ih

theorem dedupByPathAux_fuel_irrel (f1 : Nat) :
    ∀ (f2 : Nat) (l : List FileInfo), l.length ≤ f1 → l.length ≤ f2 →
      dedupByPathAux f1 l = dedupByPathAux f2 l := by
  induction f1 with
  | zero =>
    intro f2 l h1 _
    have : l = [] := List.length_eq_zero.mp (Nat.le_zero.mp h1)
    subst this
    cases f2 <;> rfl
  | succ f1 ih =>
    intro f2 l h1 h2
    cases l with
    | nil => cases f2 <;> rfl
    | cons fi rest =>
      cases f2 with
      | zero => simp at h2
      | succ f2 =>
        show fi :: dedupByPathAux f1 (removePath fi.path rest) =
          fi :: dedupByPathAux f2 (removePath fi.path rest)
        have hle := removePath_length_le fi.path rest
        simp only [List.length_cons, Nat.succ_le_succ_iff] at h1 h2
        rw [ih f2 (removePath fi.path rest) (Nat.le_trans hle h1) (Nat.le_trans hle h2)]

theorem dedupByPath_cons (fi : FileInfo) (rest : List FileInfo) :
    dedupByPath (fi :: rest) = fi :: dedupByPath (removePath fi.path rest) := by
  show fi :: dedupByPathAux rest.length (removePath fi.path rest) =
    fi :: dedupByPathAux (removePath fi.path rest).length (removePath fi.path rest)
  rw [dedupByPathAux_fuel_irrel rest.length (removePath fi.path rest).length _
      (removePath_length_le fi.path rest) (Nat.le_refl _)]

theorem mem_dedupByPath (l : List FileInfo) (x : FileInfo) (hx : x ∈ dedupByPath l) : x ∈ l := by
  suffices H : ∀ (fuel : Nat) (l : List FileInfo), l.length ≤ fuel →
      ∀ x ∈ dedupByPath l, x ∈ l from H l.length l (Nat.le_refl _) x hx
  intro fuel
  induction fuel with
  | zero =>
    intro l hl x hx2
    have : l = [] := List.length_eq_zero.mp (Nat.le_zero.mp hl)
    subst this
    simpa [dedupByPath, dedupByPathAux] using hx2
  | succ fuel ih =>
    intro l hl x hx2
    cases l with
    | nil => simpa [dedupByPath, dedupByPathAux] using hx2
    | cons fi rest =>
      rw [dedupByPath_cons] at hx2
      rcases List.mem_cons.mp hx2 with rfl | hx3
      · exact List.mem_cons_self ..
      · have hlen : (removePath fi.path rest).length ≤ fuel := by
          have := removePath_length_le fi.path rest
          simp only [List.length_cons, Nat.succ_le_succ_iff] at hl
          omega
        exact List.mem_cons_of_mem _
          ((mem_removePath _ _ _).mp (ih (removePath fi.path rest) hlen x hx3)).1

theorem dedupByPath_paths_nodup (l : List FileInfo) :
    ((dedupByPath l).map FileInfo.path).Nodup := by
  suffices H : ∀ (fuel : Nat) (l : List FileInfo), l.length ≤ fuel →
      ((dedupByPath l).map FileInfo.path).Nodup from H l.length l (Nat.le_refl _)
  intro fuel
  induction fuel with
  | zero =>
    intro l hl
    have : l = [] := List.length_eq_zero.mp (Nat.le_zero.mp hl)
    subst this
    simp [dedupByPath, dedupByPathAux]
  | succ fuel ih =>
    intro l hl
    cases l with
    | nil => simp [dedupByPath, dedupByPathAux]
    | cons fi rest =>
      rw [dedupByPath_cons]
      simp only [List.map_cons, List.nodup_cons]
      have hlen : (removePath fi.path rest).length ≤ fuel := by
        have := removePath_length_le fi.path rest
        simp only [List.length_cons, Nat.succ_le_succ_iff] at hl
        omega
      refine ⟨?_, ih _ hlen⟩
      intro hmem
      obtain ⟨y, hy, hyp⟩ := List.mem_map.mp hmem
      exact ((mem_removePath _ _ _).mp (mem_dedupByPath _ _ hy)).2 hyp

theorem exists_path_mem_dedupByPath (l : List FileInfo) :
    ∀ x ∈ l, ∃ y ∈ dedupByPath l, y.path = x.path := by
  suffices H : ∀ (fuel : Nat) (l : List FileInfo), l.length ≤ fuel →
      ∀ x ∈ l, ∃ y ∈ dedupByPath l, y.path = x.path from H l.length l (Nat.le_refl _)
  intro fuel
  induction fuel with
  | zero =>
    intro l hl x hx
    have : l = [] := List.length_eq_zero.mp (Nat.le_zero.mp hl)
    subst this
    simp at hx
  | succ fuel ih =>
    intro l hl x hx
    cases l with
    | nil => simp at hx
    | cons fi rest =>
      rw [dedupByPath_cons]
      by_cases hp : x.path = fi.path
      · exact ⟨fi, List.mem_cons_self .., hp.symm⟩
      · rcases List.mem_cons.mp hx with rfl | hxt
        · exact absurd rfl hp
        · have hlen : (removePath fi.path rest).length ≤ fuel := by
            have := removePath_length_le fi.path rest
            simp only [List.length_cons, Nat.succ_le_succ_iff] at hl
            omega
          obtain ⟨y, hy, hyp⟩ := ih (removePath fi.path rest) hlen x
            ((mem_removePath _ _ _).mpr ⟨hxt, hp⟩)
          exact ⟨y, List.mem_cons_of_mem _ hy, hyp⟩

theorem two_le_length_of_two_mem {α : Type} (m : List α) (a b : α) (ha : a ∈ m) (hb : b ∈ m)
    (hne : a ≠ b) : 2 ≤ m.length := by
  match m with
  | [] => simp at ha
  | [c] =>
    rcases List.mem_singleton.mp ha with rfl
    rcases List.mem_singleton.mp hb with rfl
    exact absurd rfl hne
  | c :: d :: t => simp [Nat.le_add_left]

theorem two_le_dedupByPath_iff (l : List FileInfo) :
    2 ≤ (dedupByPath l).length ↔ ∃ x ∈ l, ∃ y ∈ l, x.path ≠ y.path := by
  constructor
  · intro h2
    rcases hdl : dedupByPath l with _ | ⟨a, _ | ⟨b, t⟩⟩
    · rw [hdl] at h2; simp at h2
    · rw [hdl] at h2; simp at h2
    · have hnd := dedupByPath_paths_nodup l
      rw [hdl] at hnd
      simp only [List.map_cons, List.nodup_cons, List.mem_cons, List.mem_map] at hnd
      have hab : a.path ≠ b.path := fun h => hnd.1 (Or.inl h)
      have ha : a ∈ l := mem_dedupByPath l a (hdl ▸ List.mem_cons_self ..)
      have hb : b ∈ l := mem_dedupByPath l b (hdl ▸ List.mem_cons_of_mem _ (List.mem_cons_self ..))
      exact ⟨a, ha, b, hb, hab⟩
  · rintro ⟨x, hx, y, hy, hne⟩
    obtain ⟨x2, hx2, hx2p⟩ := exists_path_mem_dedupByPath l x hx
    obtain ⟨y2, hy2, hy2p⟩ := exists_path_mem_dedupByPath l y hy
    have : x2 ≠ y2 := fun h => hne (by rw [← hx2p, ← hy2p, h])
    exact two_le_length_of_two_mem _ x2 y2 hx2 hy2 this

/-!  Lemmas about the resumable phase loop. -/

theorem phaseLoopAux_no_cancel {α : Type} (sc : ScanState → Nat → ScanState)
    (step : ScanState → α → ScanState) (total : Nat) (cancel : Nat → Bool)
    (P : ScanState → Prop) (hstep : ∀ s a, P s → P (step s a)) :
    ∀ (rest : List α) (i : Nat) (st : ScanState), P st →
      (∀ j, i ≤ j → j < i + rest.length → cancel j = false) →
      ∃ st2, P st2 ∧
        phaseLoopAux sc step total cancel rest i st = (sc st2 total, List.range' i rest.length) := by
  intro rest
  induction rest with
  | nil =>
    intro i st hP _
    exact ⟨st, hP, rfl⟩
  | cons a rest ih =>
    intro i st hP hc
    have hci : cancel i = false := hc i (Nat.le_refl i) (by simp)
    rw [show phaseLoopAux sc step total cancel (a :: rest) i st =
        (let res := phaseLoopAux sc step total cancel rest (i + 1) (step st a)
         (res.1, i :: res.2)) from by rw [phaseLoopAux]; rw [if_neg (by simp [hci])]]
    obtain ⟨st2, hP2, heq⟩ := ih (i + 1) (step st a) (hstep st a hP)
      (fun j hj1 hj2 => hc j (Nat.le_of_succ_le hj1) (by simp at hj2 ⊢; omega))
    refine ⟨st2, hP2, ?_⟩
    simp only [heq]
    rw [List.length_cons, List.range'_succ]

theorem phaseLoopAux_cancel_at {α : Type} (sc : ScanState → Nat → ScanState)
    (step : ScanState → α → ScanState) (total : Nat) (cancel : Nat → Bool)
    (P : ScanState → Prop) (hstep : ∀ s a, P s → P (step s a)) (k : Nat) (hck : cancel k = true) :
    ∀ (rest : List α) (i : Nat) (st : ScanState), P st → i ≤ k → k < i + rest.length →
      (∀ j, i ≤ j → j < k → cancel j = false) →
      ∃ st2, P st2 ∧
        phaseLoopAux sc step total cancel rest i st = (sc st2 k, List.range' i (k - i)) := by
  intro rest
  induction rest with
  | nil =>
    intro i st _ _ hklt _
    simp at hklt
    omega
  | cons a rest ih =>
    intro i st hP hik hklt hc
    rcases Nat.lt_or_ge i k with hlt | hge
    · have hci : cancel i = false := hc i (Nat.le_refl i) hlt
      rw [show phaseLoopAux sc step total cancel (a :: rest) i st =
          (let res := phaseLoopAux sc step total cancel rest (i + 1) (step st a)
           (res.1, i :: res.2)) from by rw [phaseLoopAux]; rw [if_neg (by simp [hci])]]
      obtain ⟨st2, hP2, heq⟩ := ih (i + 1) (step st a) (hstep st a hP) hlt
        (by simp at hklt ⊢; omega)
        (fun j hj1 hj2 => hc j (Nat.le_of_succ_le hj1) hj2)
      refine ⟨st2, hP2, ?_⟩
      simp only [heq]
      have hr : k - i = (k - (i + 1)) + 1 := by omega
      rw [hr, List.range'_succ]
    · have hik2 : i = k := Nat.le_antisymm hik hge
      subst hik2
      rw [show phaseLoopAux sc step total cancel (a :: rest) i st = (sc st i, []) from by
        rw [phaseLoopAux]; rw [if_pos hck]]
      exact ⟨st, hP, by simp⟩

theorem phaseLoop_no_cancel {α : Type} (sc : ScanState → Nat → ScanState)
    (step : ScanState → α → ScanState) (work : List α) (cancel : Nat → Bool)
    (P : ScanState → Prop) (hstep : ∀ s a, P s → P (step s a))
    (i : Nat) (st : ScanState) (hP : P st)
    (hc : ∀ j, i ≤ j → j < work.length → cancel j = false) :
    ∃ st2, P st2 ∧
      phaseLoop sc step work cancel i st = (sc st2 work.length, List.range' i (work.length - i)) := by
  rw [phaseLoop]
  have hdl : (work.drop i).length = work.length - i := List.length_drop ..
  obtain ⟨st2, hP2, heq⟩ := phaseLoopAux_no_cancel sc step work.length cancel P hstep
    (work.drop i) i st hP (fun j hj1 hj2 => hc j hj1 (by rw [hdl] at hj2; omega))
  exact ⟨st2, hP2, by rw [heq, hdl]⟩

theorem phaseLoop_cancel_at {α : Type} (sc : ScanState → Nat → ScanState)
    (step : ScanState → α → ScanState) (work : List α) (cancel : Nat → Bool)
    (P : ScanState → Prop) (hstep : ∀ s a, P s → P (step s a)) (k : Nat)
    (hk : k < work.length) (hck : cancel k = true)
    (i : Nat) (st : ScanState) (hP : P st) (hik : i ≤ k)
    (hc : ∀ j, i ≤ j → j < k → cancel j = false) :
    ∃ st2, P st2 ∧
      phaseLoop sc step work cancel i st = (sc st2 k, List.range' i (k - i)) := by
  rw [phaseLoop]
  have hdl : (work.drop i).length = work.length - i := List.length_drop ..
  exact phaseLoopAux_cancel_at sc step work.length cancel P hstep k hck
    (work.drop i) i st hP hik (by rw [hdl]; omega) hc

/-!  Lemmas about fingerprinting. -/

theorem foldl_update_absorbed (cs : List (List Byte)) :
    ∀ ctx : Sha256Ctx, (cs.foldl Sha256Ctx.update ctx).absorbed = ctx.absorbed ++ cs.flatten := by
  induction cs with
  | nil => intro ctx; simp
  | cons c t ih =>
    intro ctx
    simp [ih, Sha256Ctx.update, List.append_assoc]

theorem chunksOfAux_flatten {α : Type} (n : Nat) :
    ∀ (fuel : Nat) (l : List α), (chunksOfAux n fuel l).flatten = l := by
  intro fuel
  induction fuel with
  | zero =>
    intro l
    cases l with
    | nil => rfl
    | cons a t => simp [chunksOfAux]
  | succ fuel ih =>
    intro l
    cases l with
    | nil => rfl
    | cons a t =>
      rw [show chunksOfAux n (fuel + 1) (a :: t) =
          (a :: t).take n :: chunksOfAux n fuel ((a :: t).drop n) from rfl]
      rw [List.flatten_cons, ih, List.take_append_drop]

theorem chunksOf_flatten {α : Type} (n : Nat) (l : List α) : (chunksOf n l).flatten = l :=
  chunksOfAux_flatten n l.length l

theorem streamed_digest_eq (bs : List Byte) (n : Nat) :
    ((chunksOf n bs).foldl Sha256Ctx.update Sha256Ctx.new).hexdigest = bytesToHex (sha256 bs) := by
  rw [Sha256Ctx.hexdigest, foldl_update_absorbed, chunksOf_flatten]
  rfl

theorem sha256_length (bs : List Byte) : (sha256 bs).length = 32 := by
  simp [sha256, wordBytesBE]

theorem bytesToHex_length (bs : List Byte) : (bytesToHex bs).length = 2 * bs.length := by
  show ((bs.map byteToHexChars).flatten).length = 2 * bs.length
  induction bs with
  | nil => simp
  | cons b t ih =>
    simp only [List.map_cons, List.flatten_cons, List.length_append, ih, byteToHexChars]
    simp [Nat.mul_succ, Nat.add_comm]

theorem hexDigitChar_mem (n : Nat) (hn : n < 16) :
    hexDigitChar n ∈ "0123456789abcdef".toList := by
  interval_cases n <;> decide

theorem bytesToHex_chars (bs : List Byte) :
    ∀ c ∈ (bytesToHex bs).toList, c ∈ "0123456789abcdef".toList := by
  intro c hc
  have hc2 : c ∈ (bs.map byteToHexChars).flatten := hc
  obtain ⟨l, hl, hcl⟩ := List.mem_flatten.mp hc2
  obtain ⟨b, _, hbl⟩ := List.mem_map.mp hl
  subst hbl
  simp only [byteToHexChars, List.mem_cons, List.not_mem_nil, or_false] at hcl
  rcases hcl with rfl | rfl
  · exact hexDigitChar_mem _ (Nat.mod_lt _ (by omega))
  · exact hexDigitChar_mem _ (Nat.mod_lt _ (by omega))

/-!  Further indexer lemmas: buckets versus filters, keys versus
first-occurrence order, groups versus buckets. -/

theorem mem_buildHashes_eq_filter (files : List FileInfo) (hsh : String) (hne : hsh ≠ "")
    (l : List FileInfo) (hm : (hsh, l) ∈ buildHashes files) :
    l = files.filter (fun fi => fi.hash_sha256 == some hsh) := by
  rw [← bucketOf_buildHashes files hsh hne]
  exact (bucketOf_eq_of_mem _ (bucketKeys_buildHashes_nodup files) _ _ hm).symm

theorem filter_mem_buildHashes (files : List FileInfo) (hsh : String) (hne : hsh ≠ "")
    (hnil : files.filter (fun fi => fi.hash_sha256 == some hsh) ≠ []) :
    (hsh, files.filter (fun fi => fi.hash_sha256 == some hsh)) ∈ buildHashes files := by
  have h2 := mem_of_bucketOf_ne_nil (buildHashes files) hsh
    (by rw [bucketOf_buildHashes files hsh hne]; exact hnil)
  rwa [bucketOf_buildHashes files hsh hne] at h2

theorem bucketKeys_buildHashes_ne_empty (files : List FileInfo) :
    ∀ hsh ∈ bucketKeys (buildHashes files), hsh ≠ "" := by
  suffices H : ∀ b : List (String × List FileInfo), (∀ k ∈ bucketKeys b, k ≠ "") →
      ∀ k ∈ bucketKeys (files.foldl hashStep b), k ≠ "" from
    H [] (by simp [bucketKeys])
  induction files with
  | nil => intro b hb; exact hb
  | cons fi t ih =>
    intro b hb
    simp only [List.foldl_cons]
    apply ih
    cases hfi : fi.hash_sha256 with
    | none => rw [show hashStep b fi = b from by simp [hashStep, hfi]]; exact hb
    | some h2 =>
      by_cases hemp : h2 = ""
      · rw [show hashStep b fi = b from by simp [hashStep, hfi, hemp]]
        exact hb
      · rw [show hashStep b fi = insertBucket b h2 fi from by simp [hashStep, hfi, hemp]]
        rw [bucketKeys_insertBucket]
        by_cases hm : h2 ∈ bucketKeys b
        · rw [if_pos hm]; exact hb
        · rw [if_neg hm]
          intro k hk
          rcases List.mem_append.mp hk with hk1 | hk2
          · exact hb k hk1
          · rw [List.mem_singleton.mp hk2]; exact hemp

theorem groupOfBucket_eq_some (bucket : String × List FileInfo) (g : DuplicateGroup)
    (h : groupOfBucket bucket = some g) :
    g = ⟨bucket.1, dedupByPath bucket.2⟩ ∧ bucket.2.length > 1 ∧
      (dedupByPath bucket.2).length > 1 := by
  rw [groupOfBucket] at h
  split_ifs at h with h1 h2
  · injection h with h3
    exact ⟨h3.symm, h1, h2⟩

theorem groupOfBucket_eq_some_of (bucket : String × List FileInfo)
    (h1 : bucket.2.length > 1) (h2 : (dedupByPath bucket.2).length > 1) :
    groupOfBucket bucket = some ⟨bucket.1, dedupByPath bucket.2⟩ := by
  rw [groupOfBucket, if_pos h1, if_pos h2]

theorem bucketKeys_hashStep (b : List (String × List FileInfo)) (fi : FileInfo) :
    bucketKeys (hashStep b fi) = occStep (bucketKeys b) fi := by
  cases hfi : fi.hash_sha256 with
  | none => simp [hashStep, occStep, hfi]
  | some h2 =>
    by_cases hemp : h2 = ""
    · simp [hashStep, occStep, hfi, hemp]
    · simp [hashStep, occStep, hfi, hemp, bucketKeys_insertBucket]

theorem bucketKeys_foldl_hashStep (files : List FileInfo) :
    ∀ b, bucketKeys (files.foldl hashStep b) = files.foldl occStep (bucketKeys b) := by
  induction files with
  | nil => intro b; rfl
  | cons fi t ih =>
    intro b
    simp only [List.foldl_cons]
    rw [ih, bucketKeys_hashStep]

theorem bucketKeys_buildHashes_eq (files : List FileInfo) :
    bucketKeys (buildHashes files) = fingerprintFirstOccurrences files := by
  rw [buildHashes, fingerprintFirstOccurrences, bucketKeys_foldl_hashStep]
  rfl

theorem filterMap_groupOfBucket_sublist (bl : List (String × List FileInfo)) :
    List.Sublist ((bl.filterMap groupOfBucket).map DuplicateGroup.id) (bucketKeys bl) := by
  induction bl with
  | nil => simp [bucketKeys]
  | cons b t ih =>
    rw [List.filterMap_cons]
    cases hb : groupOfBucket b with
    | none => exact List.Sublist.cons _ ih
    | some g =>
      rw [List.map_cons]
      have hid : g.id = b.1 := by rw [(groupOfBucket_eq_some b g hb).1]
      rw [show bucketKeys (b :: t) = b.1 :: bucketKeys t from rfl, ← hid]
      exact List.Sublist.cons₂ _ ih

/-!  Claim theorems. -/

/-- C1: duplicate grouping correctness.  For records `{(a,h1),(b,h2),(c,h1)}`
with pairwise distinct paths, `h1 ≠ h2` and `h1` a real (nonempty)
fingerprint — digests produced by the program are 64-character strings, so
never empty — `find_duplicates` returns exactly one group, keyed `h1`,
whose members are the records at `a` and `c` (so the record at `b` is in no
group); and in every run of `find_duplicates`, every member of every group
is an input record carrying precisely the fingerprint that keys its group —
a record whose fingerprint is absent is in no group. -/
theorem duplicate_grouping_correctness (a b c h1 h2 : String) (sa sb sc : Nat)
    (hab : a ≠ b) (hac : a ≠ c) (hbc : b ≠ c) (h12 : h1 ≠ h2) (hne1 : h1 ≠ "") :
    find_duplicates
        [⟨a, sa, some h1, none, none, none, false, none⟩,
         ⟨b, sb, some h2, none, none, none, false, none⟩,
         ⟨c, sc, some h1, none, none, none, false, none⟩] =
      [⟨h1, [⟨a, sa, some h1, none, none, none, false, none⟩,
             ⟨c, sc, some h1, none, none, none, false, none⟩]⟩]
    ∧ ∀ (files : List FileInfo) (g : DuplicateGroup) (fi : FileInfo),
        g ∈ find_duplicates files → fi ∈ g.files → fi.hash_sha256 = some g.id ∧ fi ∈ files := by
  constructor
  · by_cases hemp2 : h2 = ""
    · have e1 : buildHashes
          [⟨a, sa, some h1, none, none, none, false, none⟩,
           ⟨b, sb, some h2, none, none, none, false, none⟩,
           ⟨c, sc, some h1, none, none, none, false, none⟩] =
          [(h1, [⟨a, sa, some h1, none, none, none, false, none⟩,
                 ⟨c, sc, some h1, none, none, none, false, none⟩])] := by
        simp [buildHashes, hashStep, insertBucket, hne1, hemp2]
      rw [find_duplicates, e1]
      simp [groupStep, dedupByPath, dedupByPathAux, removePath, Ne.symm hac]
    · have e1 : buildHashes
          [⟨a, sa, some h1, none, none, none, false, none⟩,
           ⟨b, sb, some h2, none, none, none, false, none⟩,
           ⟨c, sc, some h1, none, none, none, false, none⟩] =
          [(h1, [⟨a, sa, some h1, none, none, none, false, none⟩,
                 ⟨c, sc, some h1, none, none, none, false, none⟩]),
           (h2, [⟨b, sb, some h2, none, none, none, false, none⟩])] := by
        simp [buildHashes, hashStep, insertBucket, h12, hne1, hemp2]
      rw [find_duplicates, e1]
      simp [groupStep, dedupByPath, dedupByPathAux, removePath, Ne.symm hac]
  · intro files g fi hg hfi
    rw [find_duplicates_eq_filterMap] at hg
    obtain ⟨bucket, hbmem, hbg⟩ := List.mem_filterMap.mp hg
    obtain ⟨hg2, _, _⟩ := groupOfBucket_eq_some bucket g hbg
    subst hg2
    have hkne : bucket.1 ≠ "" := bucketKeys_buildHashes_ne_empty files bucket.1
      (List.mem_map.mpr ⟨bucket, hbmem, rfl⟩)
    have hl : bucket.2 = files.filter (fun x => x.hash_sha256 == some bucket.1) :=
      mem_buildHashes_eq_filter files bucket.1 hkne bucket.2 (by
        rcases bucket with ⟨k, l⟩
        exact hbmem)
    have hfi2 : fi ∈ bucket.2 := mem_dedupByPath _ _ hfi
    rw [hl, List.mem_filter] at hfi2
    exact ⟨by simpa using hfi2.2, hfi2.1⟩

/-- C1 witness at a concrete instance. -/
theorem duplicate_grouping_correctness_witness :
    find_duplicates
        [⟨"a", 1, some "h1", none, none, none, false, none⟩,
         ⟨"b", 2, some "h2", none, none, none, false, none⟩,
         ⟨"c", 3, some "h1", none, none, none, false, none⟩] =
      [⟨"h1", [⟨"a", 1, some "h1", none, none, none, false, none⟩,
               ⟨"c", 3, some "h1", none, none, none, false, none⟩]⟩]
    ∧ ∀ (files : List FileInfo) (g : DuplicateGroup) (fi : FileInfo),
        g ∈ find_duplicates files → fi ∈ g.files → fi.hash_sha256 = some g.id ∧ fi ∈ files :=
  duplicate_grouping_correctness "a" "b" "c" "h1" "h2" 1 2 3
    (by decide) (by decide) (by decide) (by decide) (by decide)

/-- C3: for a real (nonempty) fingerprint `hsh` — program digests are
64-character strings, and the truthiness guard treats an empty-string
fingerprint like an absent one — a group keyed `hsh` is emitted iff at
least two records with distinct paths carry fingerprint `hsh`; in
particular a fingerprint carried by one record only, or by several records
all sharing one path, yields no group. -/
theorem group_emitted_iff_two_distinct_paths (files : List FileInfo) (hsh : String)
    (hne : hsh ≠ "") :
    (∃ g ∈ find_duplicates files, g.id = hsh) ↔
      ∃ f1 ∈ files, ∃ f2 ∈ files,
        f1.hash_sha256 = some hsh ∧ f2.hash_sha256 = some hsh ∧ f1.path ≠ f2.path := by
  constructor
  · rintro ⟨g, hg, hid⟩
    rw [find_duplicates_eq_filterMap] at hg
    obtain ⟨bucket, hbmem, hbg⟩ := List.mem_filterMap.mp hg
    obtain ⟨hg2, _, hd2⟩ := groupOfBucket_eq_some bucket g hbg
    have hkey : bucket.1 = hsh := by rw [← hid, hg2]
    have hl : bucket.2 = files.filter (fun x => x.hash_sha256 == some hsh) := by
      rw [← hkey]
      exact mem_buildHashes_eq_filter files bucket.1 (by rw [hkey]; exact hne) bucket.2 (by
        rcases bucket with ⟨k, l⟩
        exact hbmem)
    obtain ⟨x, hx, y, hy, hxy⟩ := (two_le_dedupByPath_iff bucket.2).mp hd2
    rw [hl, List.mem_filter] at hx hy
    exact ⟨x, hx.1, y, hy.1, by simpa using hx.2, by simpa using hy.2, hxy⟩
  · rintro ⟨f1, hf1, f2, hf2, hh1, hh2, hpath⟩
    have hf1l : f1 ∈ files.filter (fun fi => fi.hash_sha256 == some hsh) :=
      List.mem_filter.mpr ⟨hf1, by simp [hh1]⟩
    have hf2l : f2 ∈ files.filter (fun fi => fi.hash_sha256 == some hsh) :=
      List.mem_filter.mpr ⟨hf2, by simp [hh2]⟩
    have hne12 : f1 ≠ f2 := fun h => hpath (by rw [h])
    have hlen : (files.filter (fun fi => fi.hash_sha256 == some hsh)).length > 1 :=
      two_le_length_of_two_mem _ f1 f2 hf1l hf2l hne12
    have hdlen : (dedupByPath (files.filter (fun fi => fi.hash_sha256 == some hsh))).length > 1 :=
      (two_le_dedupByPath_iff _).mpr ⟨f1, hf1l, f2, hf2l, hpath⟩
    have hmem : (hsh, files.filter (fun fi => fi.hash_sha256 == some hsh)) ∈ buildHashes files :=
      filter_mem_buildHashes files hsh hne (by
        intro hnil
        rw [hnil] at hf1l
        simp at hf1l)
    refine ⟨⟨hsh, dedupByPath (files.filter (fun fi => fi.hash_sha256 == some hsh))⟩, ?_, rfl⟩
    rw [find_duplicates_eq_filterMap]
    exact List.mem_filterMap.mpr ⟨(hsh, files.filter (fun fi => fi.hash_sha256 == some hsh)),
      hmem, groupOfBucket_eq_some_of _ hlen hdlen⟩

/-- C3 witness: on `filesC9` and the fingerprint `"hb"`, carried by two
records with distinct paths. -/
theorem group_emitted_iff_two_distinct_paths_witness :
    (∃ g ∈ find_duplicates filesC9, g.id = "hb") ↔
      ∃ f1 ∈ filesC9, ∃ f2 ∈ filesC9,
        f1.hash_sha256 = some "hb" ∧ f2.hash_sha256 = some "hb" ∧ f1.path ≠ f2.path :=
  group_emitted_iff_two_distinct_paths filesC9 "hb" (by decide)

/-- C9 counterexample: `find_duplicates` does not sort its output by
fingerprint — on `filesC9` it emits keys `["hb", "ha"]`, which is not
sorted. -/
theorem find_duplicates_output_not_sorted :
    ¬ ((find_duplicates filesC9).map DuplicateGroup.id).Sorted (· ≤ ·) := by
  have hmap : (find_duplicates filesC9).map DuplicateGroup.id = ["hb", "ha"] := by decide
  rw [hmap]
  intro hs
  have h2 : "hb" ≤ "ha" := (List.sorted_cons.mp hs).1 "ha" (List.mem_singleton.mpr rfl)
  rw [String.le_iff_toList_le] at h2
  exact absurd h2 (by decide)

/-- C9 amended: the groups returned by `find_duplicates` are emitted in
order of first occurrence of their fingerprint in the input (the Python
dict insertion order) — deterministic for a given input sequence, but not
sorted by fingerprint. -/
theorem find_duplicates_order_is_first_occurrence (files : List FileInfo) :
    List.Sublist ((find_duplicates files).map DuplicateGroup.id)
      (fingerprintFirstOccurrences files) := by
  rw [find_duplicates_eq_filterMap, ← bucketKeys_buildHashes_eq]
  exact filterMap_groupOfBucket_sublist _

/-- C7: fingerprinting is deterministic — two sources with identical byte
content give identical digests through either fingerprinter — and the
digest is the lowercase hexadecimal rendering of the 256-bit SHA-256 hash
of the content read in 64 KiB blocks: a 64-character string over
`0123456789abcdef`. -/
theorem fingerprint_deterministic_and_lowercase_hex (b1 b2 : List Byte) (hsame : b1 = b2) :
    _calculate_sha256_from_bytes b1 65536 = _calculate_sha256_from_bytes b2 65536
    ∧ _calculate_sha256 (some b1) 65536 = _calculate_sha256 (some b2) 65536
    ∧ ∃ d : String, _calculate_sha256_from_bytes b1 65536 = some d
        ∧ d = bytesToHex (sha256 b1)
        ∧ d.length = 64
        ∧ ∀ c ∈ d.toList, c ∈ "0123456789abcdef".toList := by
  subst hsame
  refine ⟨rfl, rfl, bytesToHex (sha256 b1), ?_, rfl, ?_, bytesToHex_chars _⟩
  · exact congrArg some (streamed_digest_eq b1 65536)
  · rw [bytesToHex_length, sha256_length]

/-- C7 witness at the empty byte sequence. -/
theorem fingerprint_deterministic_and_lowercase_hex_witness :
    _calculate_sha256_from_bytes [] 65536 = _calculate_sha256_from_bytes [] 65536
    ∧ _calculate_sha256 (some []) 65536 = _calculate_sha256 (some []) 65536
    ∧ ∃ d : String, _calculate_sha256_from_bytes [] 65536 = some d
        ∧ d = bytesToHex (sha256 [])
        ∧ d.length = 64
        ∧ ∀ c ∈ d.toList, c ∈ "0123456789abcdef".toList :=
  fingerprint_deterministic_and_lowercase_hex [] [] rfl

/-- C10: hashing a file whose contents are the byte sequence `bs` and
hashing an in-memory stream of `bs` return the same digest, namely the
SHA-256 of `bs` in lowercase hexadecimal; on the empty sequence both give
the well-known digest of the empty input. -/
theorem fingerprinters_equivalent (bs : List Byte) :
    _calculate_sha256 (some bs) 65536 = _calculate_sha256_from_bytes bs 65536
    ∧ _calculate_sha256_from_bytes bs 65536 = some (bytesToHex (sha256 bs))
    ∧ _calculate_sha256 (some []) 65536 =
        some "e3b0c44298fc1c149afbf4c8996fb92427ae41e4649b934ca495991b7852b855" := by
  refine ⟨rfl, congrArg some (streamed_digest_eq bs 65536), by decide⟩

/-- C6: the checkpoint store never escalates an error — loading a missing
or corrupt checkpoint yields "absent" rather than a failure, loading a good
checkpoint yields its state, clearing a nonexistent checkpoint is a no-op
whatever the remove outcome would be, and every save outcome (success,
failed open, failed dump) returns a store state: a successful save round
trips, a failed open leaves the prior checkpoint, and a failed dump leaves
a corrupt blob which the next load treats as absent. -/
theorem checkpoint_store_never_escalates (s : ScanState) (store : CheckpointBlob) :
    load_scan_state CheckpointBlob.absent = none
    ∧ load_scan_state CheckpointBlob.corrupt = none
    ∧ load_scan_state (CheckpointBlob.good s) = some s
    ∧ delete_scan_state true CheckpointBlob.absent = CheckpointBlob.absent
    ∧ delete_scan_state false CheckpointBlob.absent = CheckpointBlob.absent
    ∧ load_scan_state (save_scan_state SaveOutcome.writeOk s store) = some s
    ∧ save_scan_state SaveOutcome.openFail s store = store
    ∧ load_scan_state (save_scan_state SaveOutcome.dumpFail s store) = none :=
  ⟨rfl, rfl, rfl, rfl, rfl, rfl, rfl, rfl⟩

/-- C4 amended: a readable symlink is skipped by the disk-scanning phase
with no record and no error entry (the whole state is unchanged); but a
symlink that fails the `os.access` readability check — checked before the
symlink test — is recorded as a "Permission denied" error, so broken or
unreadable symlinks do produce error entries. -/
theorem readable_symlink_skipped_silently (fs : DiskFS) (st : ScanState) (p : String)
    (hacc : fs.access_read p = true) (hlink : fs.islink p = true) :
    processDiskUnit fs st p = st := by
  unfold processDiskUnit
  rw [if_neg (by simp [hacc]), if_pos hlink]

/-- C4 witness: a concrete readable symlink leaves the state unchanged. -/
theorem readable_symlink_skipped_silently_witness :
    processDiskUnit fsAllSymlinks stEmpty "link" = stEmpty :=
  readable_symlink_skipped_silently fsAllSymlinks stEmpty "link" rfl rfl

/-- C4 counterexample: an unreadable symlink is not silently skipped — the
access check precedes the symlink check, so it adds a "Permission denied"
entry to the errors map, contradicting the claim that symlinks never
trigger an error entry. -/
theorem unreadable_symlink_gets_error_entry :
    fsDeniedSymlinks.islink "link" = true
    ∧ stEmpty.scan_errors = []
    ∧ (processDiskUnit fsDeniedSymlinks stEmpty "link").scan_errors
        = [("link", "Permission denied")] :=
  ⟨rfl, rfl, rfl⟩

/-- C8 amended: re-entering a phase does not re-materialize its work list —
for the disk phase provided the stored list is nonempty (its guard is
Python truthiness of the list), and for the zip phase whenever the
collected flag is set (also with an empty list); the state, work list and
cursor are left unchanged. -/
theorem worklist_materialization_idempotent (fs : DiskFS) (zfs : ZipFS) (st st2 : ScanState)
    (hne : st.collected_file_paths_for_scan_phase ≠ [])
    (hflag : st2.zip_files_to_scan_info_collected = true) :
    materializeDiskPhase fs st = st ∧ materializeZipPhase fs zfs st2 = st2 := by
  constructor
  · unfold materializeDiskPhase
    rw [if_neg (by simpa [List.isEmpty_iff] using hne)]
  · unfold materializeZipPhase
    rw [if_neg (by simp [hflag])]

/-- C8 witness: a state with a nonempty materialized disk work list and a
collected zip work list is untouched by both materialization steps. -/
theorem worklist_materialization_idempotent_witness :
    materializeDiskPhase fsWalkOne stMat = stMat
    ∧ materializeZipPhase fsWalkOne zfsNone stMat = stMat :=
  worklist_materialization_idempotent fsWalkOne zfsNone stMat stMat (by decide) rfl

/-- C8 counterexample: a materialized-but-empty disk work list is
re-materialized on re-entry — the guard is list truthiness, so the walk
runs again and the stored work list changes (here from `[]` to `["f"]`),
contradicting the claim that the stored work list is left unchanged.  Such
a state is reachable: a scan of an empty directory paused during the disk
phase persists `collected_file_paths_for_scan_phase = []`. -/
theorem empty_disk_worklist_rematerialized :
    stEmpty.collected_file_paths_for_scan_phase = []
    ∧ (materializeDiskPhase fsWalkOne stEmpty).collected_file_paths_for_scan_phase = ["f"]
    ∧ materializeDiskPhase fsWalkOne stEmpty ≠ stEmpty := by
  refine ⟨rfl, rfl, ?_⟩
  intro h
  have h2 := congrArg ScanState.collected_file_paths_for_scan_phase h
  rw [show (materializeDiskPhase fsWalkOne stEmpty).collected_file_paths_for_scan_phase
      = ["f"] from rfl,
    show stEmpty.collected_file_paths_for_scan_phase = [] from rfl] at h2
  exact absurd h2 (by simp)

theorem dictInsert_not_mem (d : List (String × String)) (k v : String)
    (h : k ∉ d.map Prod.fst) : dictInsert d k v = d ++ [(k, v)] := by
  induction d with
  | nil => rfl
  | cons p rest ih =>
    obtain ⟨k0, v0⟩ := p
    simp only [List.map_cons, List.mem_cons] at h
    push_neg at h
    rw [show dictInsert ((k0, v0) :: rest) k v = (k0, v0) :: dictInsert rest k v from by
      rw [dictInsert, if_neg (fun hh => h.1 hh.symm)]]
    rw [ih h.2, List.cons_append]

theorem zipEntryStep_foldl (p : String) (entries : List ZipEntry) :
    ∀ (accF : List FileInfo) (accE : List (String × String)),
      ((entries.filter zipFailEntry).map (fun m => p ++ "/" ++ m.filename)).Nodup →
      (∀ m ∈ entries.filter zipFailEntry, (p ++ "/" ++ m.filename) ∉ accE.map Prod.fst) →
      entries.foldl (zipEntryStep p) (accF, accE) =
        (accF ++ (entries.filter zipOkEntry).map (zipRecordOf p),
         accE ++ (entries.filter zipFailEntry).map
           (fun m => (p ++ "/" ++ m.filename,
             "Error processing file in zip: " ++ exceptErrMsg m.read_bytes))) := by
  induction entries with
  | nil =>
    intro accF accE _ _
    simp
  | cons m t ih =>
    intro accF accE h1 h2
    simp only [List.foldl_cons]
    by_cases hdir : m.is_dir
    · have hfail : ¬ zipFailEntry m = true := by simp [zipFailEntry, hdir]
      have hok : ¬ zipOkEntry m = true := by simp [zipOkEntry, hdir]
      rw [show zipEntryStep p (accF, accE) m = (accF, accE) from by
        rw [zipEntryStep, if_pos hdir]]
      rw [List.filter_cons_of_neg hfail] at h1 h2 ⊢
      rw [List.filter_cons_of_neg hok]
      exact ih accF accE h1 h2
    · cases hrb : m.read_bytes with
      | ok bs =>
        have hfail : ¬ zipFailEntry m = true := by simp [zipFailEntry, hdir, exceptIsOk, hrb]
        have hok : zipOkEntry m = true := by simp [zipOkEntry, hdir, exceptIsOk, hrb]
        rw [show zipEntryStep p (accF, accE) m = (accF ++ [zipRecordOf p m], accE) from by
          rw [zipEntryStep, if_neg (by simp [hdir]), hrb]; rfl]
        rw [List.filter_cons_of_neg hfail] at h1 h2 ⊢
        rw [List.filter_cons_of_pos hok, List.map_cons]
        rw [ih (accF ++ [zipRecordOf p m]) accE h1 h2]
        rw [List.append_assoc]
        rfl
      | error e =>
        have hfail : zipFailEntry m = true := by simp [zipFailEntry, hdir, exceptIsOk, hrb]
        have hokf : ¬ zipOkEntry m = true := by simp [zipOkEntry, hdir, exceptIsOk, hrb]
        have hmem : m ∈ (m :: t).filter zipFailEntry := by
          rw [List.filter_cons_of_pos hfail]
          exact List.mem_cons_self ..
        have hkey : (p ++ "/" ++ m.filename) ∉ accE.map Prod.fst := h2 m hmem
        rw [show zipEntryStep p (accF, accE) m =
            (accF, dictInsert accE (p ++ "/" ++ m.filename)
              ("Error processing file in zip: " ++ e)) from by
          rw [zipEntryStep, if_neg (by simp [hdir]), hrb]]
        rw [dictInsert_not_mem accE _ _ hkey]
        rw [List.filter_cons_of_pos hfail] at h1 h2 ⊢
        rw [List.map_cons] at h1
        have h1t : ((t.filter zipFailEntry).map (fun m2 => p ++ "/" ++ m2.filename)).Nodup :=
      (List.nodup_cons.mp h1).2
        have hhead : (p ++ "/" ++ m.filename) ∉
            (t.filter zipFailEntry).map (fun m2 => p ++ "/" ++ m2.filename) :=
          (List.nodup_cons.mp h1).1
        have h2t : ∀ m2 ∈ t.filter zipFailEntry, (p ++ "/" ++ m2.filename) ∉
            (accE ++ [(p ++ "/" ++ m.filename,
              "Error processing file in zip: " ++ e)]).map Prod.fst := by
          intro m2 hm2
          rw [List.map_append]
          intro hc
          rcases List.mem_append.mp hc with hc1 | hc2
          · exact h2 m2 (List.mem_cons_of_mem _ hm2) hc1
          · simp only [List.map_cons, List.map_nil, List.mem_singleton] at hc2
            exact hhead (hc2 ▸ List.mem_map.mpr ⟨m2, hm2, rfl⟩)
        rw [ih accF _ h1t h2t, List.filter_cons_of_neg hokf, List.map_cons, List.append_assoc]
        simp only [hrb, exceptErrMsg, List.singleton_append]

/-- C5: archive expansion is partial-failure tolerant at entry granularity.
For a path failing the container check, the result is no records and one
error keyed by the container path.  For a valid container, each failing
member contributes exactly one error keyed
`container_path ++ "/" ++ entry_name` and each successfully read non-
directory member still contributes its fingerprinted record, regardless of
failures among the other members (keys assumed pairwise distinct, as they
are for the member lists a zip directory yields). -/
theorem archive_partial_failure_tolerant (zfs : ZipFS) (p : String) (entries : List ZipEntry)
    (hnd : ((entries.filter zipFailEntry).map (fun m => p ++ "/" ++ m.filename)).Nodup) :
    (zfs.is_zipfile p = false →
      _scan_single_zip_archive zfs p = ([], [(p, "Not a valid ZIP file or corrupted.")]))
    ∧ (zfs.is_zipfile p = true → zfs.open_zip p = Except.ok entries →
        _scan_single_zip_archive zfs p =
          ((entries.filter zipOkEntry).map (zipRecordOf p),
           (entries.filter zipFailEntry).map
             (fun m => (p ++ "/" ++ m.filename,
               "Error processing file in zip: " ++ exceptErrMsg m.read_bytes)))) := by
  constructor
  · intro hz
    unfold _scan_single_zip_archive
    rw [if_pos hz]
  · intro hz hopen
    unfold _scan_single_zip_archive
    rw [if_neg (by simp [hz]), hopen]
    simpa using zipEntryStep_foldl p entries [] [] hnd (by simp)

/-- C5 witness: a three-member archive with one corrupt entry yields
exactly one error, keyed by container and entry name, and records for the
two readable entries. -/
theorem archive_partial_failure_tolerant_witness :
    (czfsC5.is_zipfile "a.zip" = false →
      _scan_single_zip_archive czfsC5 "a.zip" =
        ([], [("a.zip", "Not a valid ZIP file or corrupted.")]))
    ∧ (czfsC5.is_zipfile "a.zip" = true → czfsC5.open_zip "a.zip" = Except.ok centriesC5 →
        _scan_single_zip_archive czfsC5 "a.zip" =
          ((centriesC5.filter zipOkEntry).map (zipRecordOf "a.zip"),
           (centriesC5.filter zipFailEntry).map
             (fun m => ("a.zip" ++ "/" ++ m.filename,
               "Error processing file in zip: " ++ exceptErrMsg m.read_bytes)))) :=
  archive_partial_failure_tolerant czfsC5 "a.zip" centriesC5 (by decide)

theorem processDiskUnit_collected (fs : DiskFS) (st : ScanState) (p : String) :
    (processDiskUnit fs st p).collected_file_paths_for_scan_phase
      = st.collected_file_paths_for_scan_phase := by
  unfold processDiskUnit
  split
  · rfl
  · split
    · rfl
    · split
      · rfl
      · split
        · rfl
        · rfl

theorem processZipUnit_zipinfo (dfs : DiskFS) (zfs : ZipFS) (st : ScanState) (z : FileInfo) :
    (processZipUnit dfs zfs st z).zip_files_to_scan_info = st.zip_files_to_scan_info
    ∧ (processZipUnit dfs zfs st z).zip_files_to_scan_info_collected
        = st.zip_files_to_scan_info_collected := by
  unfold processZipUnit
  split
  · exact ⟨rfl, rfl⟩
  · exact ⟨rfl, rfl⟩

/-- C2: cancellation granularity, for both resumable phase loops.  If the
cancellation predicate first fires at the poll after `k` of `n` units are
processed, the cursor stored in the state is exactly `k` and the units
processed in that invocation are `0..k-1`; re-entering the phase through
its resumable entry point with a predicate that never fires processes
exactly the units `k..n-1`, once each in order, and leaves the cursor at
`n` — together every unit is processed exactly once and none is skipped. -/
theorem cancellation_granularity_and_resume
    (fs : DiskFS) (st : ScanState) (paths : List String) (k : Nat) (cancel : Nat → Bool)
    (hcol : st.collected_file_paths_for_scan_phase = paths)
    (hidx : st.pending_file_paths_idx = 0)
    (hk : k < paths.length) (hck : cancel k = true)
    (hbefore : ∀ j < k, cancel j = false)
    (dfs : DiskFS) (zfs : ZipFS) (st2 : ScanState) (zips : List FileInfo) (k2 : Nat)
    (cancel2 : Nat → Bool)
    (hzcol : st2.zip_files_to_scan_info = zips)
    (hzflag : st2.zip_files_to_scan_info_collected = true)
    (hzidx : st2.pending_zip_info_idx = 0)
    (hk2 : k2 < zips.length) (hck2 : cancel2 k2 = true)
    (hbefore2 : ∀ j < k2, cancel2 j = false) :
    ((scan_directory_recursive_resumable fs cancel st).1.pending_file_paths_idx = k
     ∧ (scan_directory_recursive_resumable fs cancel st).2 = List.range' 0 k
     ∧ (scan_directory_recursive_resumable fs (fun _ => false)
          (scan_directory_recursive_resumable fs cancel st).1).2
         = List.range' k (paths.length - k)
     ∧ (scan_directory_recursive_resumable fs (fun _ => false)
          (scan_directory_recursive_resumable fs cancel st).1).1.pending_file_paths_idx
         = paths.length
     ∧ List.range' 0 k ++ List.range' k (paths.length - k) = List.range' 0 paths.length
     ∧ (List.range' k (paths.length - k)).Nodup
     ∧ (∀ j, j ∈ List.range' k (paths.length - k) ↔ k ≤ j ∧ j < paths.length))
    ∧ ((add_zip_contents_to_scan_resumable dfs zfs cancel2 st2).1.pending_zip_info_idx = k2
       ∧ (add_zip_contents_to_scan_resumable dfs zfs cancel2 st2).2 = List.range' 0 k2
       ∧ (add_zip_contents_to_scan_resumable dfs zfs (fun _ => false)
            (add_zip_contents_to_scan_resumable dfs zfs cancel2 st2).1).2
           = List.range' k2 (zips.length - k2)
       ∧ (add_zip_contents_to_scan_resumable dfs zfs (fun _ => false)
            (add_zip_contents_to_scan_resumable dfs zfs cancel2 st2).1).1.pending_zip_info_idx
           = zips.length
       ∧ List.range' 0 k2 ++ List.range' k2 (zips.length - k2) = List.range' 0 zips.length
       ∧ (List.range' k2 (zips.length - k2)).Nodup
       ∧ (∀ j, j ∈ List.range' k2 (zips.length - k2) ↔ k2 ≤ j ∧ j < zips.length)) := by
  constructor
  · -- disk phase
    have hpne : paths ≠ [] := by
      intro h
      rw [h] at hk
      simp at hk
    have hmat : materializeDiskPhase fs st = st := by
      unfold materializeDiskPhase
      rw [if_neg (by rw [hcol]; simpa [List.isEmpty_iff] using hpne)]
    have hrun1 : scan_directory_recursive_resumable fs cancel st
        = diskScanLoop fs paths cancel 0 st := by
      show diskScanLoop fs (materializeDiskPhase fs st).collected_file_paths_for_scan_phase
        cancel (materializeDiskPhase fs st).pending_file_paths_idx (materializeDiskPhase fs st)
        = diskScanLoop fs paths cancel 0 st
      rw [hmat, hcol, hidx]
    obtain ⟨stA, hPA, heqA⟩ := phaseLoop_cancel_at
      (fun s j => { s with pending_file_paths_idx := j }) (processDiskUnit fs) paths cancel
      (fun s => s.collected_file_paths_for_scan_phase = paths)
      (fun s a hs => by
        show (processDiskUnit fs s a).collected_file_paths_for_scan_phase = paths
        rw [processDiskUnit_collected fs s a]
        exact hs)
      k hk hck 0 st hcol (Nat.zero_le k) (fun j _ hj => hbefore j hj)
    have heqA2 : scan_directory_recursive_resumable fs cancel st
        = ({ stA with pending_file_paths_idx := k }, List.range' 0 k) := by
      rw [hrun1]
      show phaseLoop (fun s j => { s with pending_file_paths_idx := j }) (processDiskUnit fs)
        paths cancel 0 st = _
      rw [heqA, Nat.sub_zero]
    have hmat2 : materializeDiskPhase fs { stA with pending_file_paths_idx := k }
        = { stA with pending_file_paths_idx := k } := by
      unfold materializeDiskPhase
      rw [if_neg (by
        show ¬ (stA.collected_file_paths_for_scan_phase.isEmpty = true)
        rw [hPA]
        simpa [List.isEmpty_iff] using hpne)]
    obtain ⟨stB, hPB, heqB⟩ := phaseLoop_no_cancel
      (fun s j => { s with pending_file_paths_idx := j }) (processDiskUnit fs) paths
      (fun _ => false)
      (fun s => s.collected_file_paths_for_scan_phase = paths)
      (fun s a hs => by
        show (processDiskUnit fs s a).collected_file_paths_for_scan_phase = paths
        rw [processDiskUnit_collected fs s a]
        exact hs)
      k { stA with pending_file_paths_idx := k } hPA (fun _ _ _ => rfl)
    have heqB2 : scan_directory_recursive_resumable fs (fun _ => false)
          (scan_directory_recursive_resumable fs cancel st).1
        = ({ stB with pending_file_paths_idx := paths.length },
           List.range' k (paths.length - k)) := by
      rw [heqA2]
      show diskScanLoop fs
        (materializeDiskPhase fs { stA with pending_file_paths_idx := k
          }).collected_file_paths_for_scan_phase (fun _ => false)
        (materializeDiskPhase fs { stA with pending_file_paths_idx := k
          }).pending_file_paths_idx
        (materializeDiskPhase fs { stA with pending_file_paths_idx := k }) = _
      rw [hmat2]
      show phaseLoop (fun s j => { s with pending_file_paths_idx := j }) (processDiskUnit fs)
        stA.collected_file_paths_for_scan_phase
        (fun _ => false) k { stA with pending_file_paths_idx := k } = _
      nth_rewrite 1 [hPA]
      rw [heqB]
    refine ⟨by rw [heqA2], by rw [heqA2], by rw [heqB2], by rw [heqB2], ?_, ?_, ?_⟩
    · have happ := List.range'_append_1 0 k (paths.length - k)
      rw [Nat.zero_add] at happ
      rw [happ]
      congr 1
      omega
    · exact List.nodup_range' k (paths.length - k)
    · intro j
      rw [List.mem_range'_1]
      omega
  · -- zip phase
    have hzne : zips ≠ [] := by
      intro h
      rw [h] at hk2
      simp at hk2
    have hmat : materializeZipPhase dfs zfs st2 = st2 := by
      unfold materializeZipPhase
      rw [if_neg (by simp [hzflag])]
    have hrun1 : add_zip_contents_to_scan_resumable dfs zfs cancel2 st2
        = zipScanLoop dfs zfs zips cancel2 0 st2 := by
      show zipScanLoop dfs zfs (materializeZipPhase dfs zfs st2).zip_files_to_scan_info
        cancel2 (materializeZipPhase dfs zfs st2).pending_zip_info_idx
        (materializeZipPhase dfs zfs st2) = zipScanLoop dfs zfs zips cancel2 0 st2
      rw [hmat, hzcol, hzidx]
    obtain ⟨stA, hPA, heqA⟩ := phaseLoop_cancel_at
      (fun s j => { s with pending_zip_info_idx := j }) (processZipUnit dfs zfs) zips cancel2
      (fun s => s.zip_files_to_scan_info = zips ∧ s.zip_files_to_scan_info_collected = true)
      (fun s a hs => by
        refine ⟨?_, ?_⟩
        · show (processZipUnit dfs zfs s a).zip_files_to_scan_info = zips
          rw [(processZipUnit_zipinfo dfs zfs s a).1]
          exact hs.1
        · show (processZipUnit dfs zfs s a).zip_files_to_scan_info_collected = true
          rw [(processZipUnit_zipinfo dfs zfs s a).2]
          exact hs.2)
      k2 hk2 hck2 0 st2 ⟨hzcol, hzflag⟩ (Nat.zero_le k2) (fun j _ hj => hbefore2 j hj)
    have heqA2 : add_zip_contents_to_scan_resumable dfs zfs cancel2 st2
        = ({ stA with pending_zip_info_idx := k2 }, List.range' 0 k2) := by
      rw [hrun1]
      show phaseLoop (fun s j => { s with pending_zip_info_idx := j }) (processZipUnit dfs zfs)
        zips cancel2 0 st2 = _
      rw [heqA, Nat.sub_zero]
    have hmat2 : materializeZipPhase dfs zfs { stA with pending_zip_info_idx := k2 }
        = { stA with pending_zip_info_idx := k2 } := by
      unfold materializeZipPhase
      rw [if_neg (by
        show ¬ (stA.zip_files_to_scan_info_collected = false)
        rw [hPA.2]
        simp)]
    obtain ⟨stB, hPB, heqB⟩ := phaseLoop_no_cancel
      (fun s j => { s with pending_zip_info_idx := j }) (processZipUnit dfs zfs) zips
      (fun _ => false)
      (fun s => s.zip_files_to_scan_info = zips ∧ s.zip_files_to_scan_info_collected = true)
      (fun s a hs => by
        refine ⟨?_, ?_⟩
        · show (processZipUnit dfs zfs s a).zip_files_to_scan_info = zips
          rw [(processZipUnit_zipinfo dfs zfs s a).1]
          exact hs.1
        · show (processZipUnit dfs zfs s a).zip_files_to_scan_info_collected = true
          rw [(processZipUnit_zipinfo dfs zfs s a).2]
          exact hs.2)
      k2 { stA with pending_zip_info_idx := k2 } ⟨hPA.1, hPA.2⟩ (fun _ _ _ => rfl)
    have heqB2 : add_zip_contents_to_scan_resumable dfs zfs (fun _ => false)
          (add_zip_contents_to_scan_resumable dfs zfs cancel2 st2).1
        = ({ stB with pending_zip_info_idx := zips.length },
           List.range' k2 (zips.length - k2)) := by
      rw [heqA2]
      show zipScanLoop dfs zfs
        (materializeZipPhase dfs zfs { stA with pending_zip_info_idx := k2
          }).zip_files_to_scan_info (fun _ => false)
        (materializeZipPhase dfs zfs { stA with pending_zip_info_idx := k2
          }).pending_zip_info_idx
        (materializeZipPhase dfs zfs { stA with pending_zip_info_idx := k2 }) = _
      rw [hmat2]
      show phaseLoop (fun s j => { s with pending_zip_info_idx := j }) (processZipUnit dfs zfs)
        stA.zip_files_to_scan_info
        (fun _ => false) k2 { stA with pending_zip_info_idx := k2 } = _
      nth_rewrite 1 [hPA.1]
      rw [heqB]
    refine ⟨by rw [heqA2], by rw [heqA2], by rw [heqB2], by rw [heqB2], ?_, ?_, ?_⟩
    · have happ := List.range'_append_1 0 k2 (zips.length - k2)
      rw [Nat.zero_add] at happ
      rw [happ]
      congr 1
      omega
    · exact List.nodup_range' k2 (zips.length - k2)
    · intro j
      rw [List.mem_range'_1]
      omega

/-- C2 witness: three disk paths and two archives, cancellation first
firing after one unit in each phase. -/
theorem cancellation_granularity_and_resume_witness :
    ((scan_directory_recursive_resumable fsAllSymlinks (fun j => j == 1)
         stW).1.pending_file_paths_idx = 1
     ∧ (scan_directory_recursive_resumable fsAllSymlinks (fun j => j == 1) stW).2
         = List.range' 0 1
     ∧ (scan_directory_recursive_resumable fsAllSymlinks (fun _ => false)
          (scan_directory_recursive_resumable fsAllSymlinks (fun j => j == 1) stW).1).2
         = List.range' 1 (["x", "y", "z"].length - 1)
     ∧ (scan_directory_recursive_resumable fsAllSymlinks (fun _ => false)
          (scan_directory_recursive_resumable fsAllSymlinks (fun j => j == 1)
            stW).1).1.pending_file_paths_idx
         = ["x", "y", "z"].length
     ∧ List.range' 0 1 ++ List.range' 1 (["x", "y", "z"].length - 1)
         = List.range' 0 ["x", "y", "z"].length
     ∧ (List.range' 1 (["x", "y", "z"].length - 1)).Nodup
     ∧ (∀ j, j ∈ List.range' 1 (["x", "y", "z"].length - 1)
         ↔ 1 ≤ j ∧ j < ["x", "y", "z"].length))
    ∧ ((add_zip_contents_to_scan_resumable fsAllSymlinks zfsNone (fun j => j == 1)
           stW).1.pending_zip_info_idx = 1
       ∧ (add_zip_contents_to_scan_resumable fsAllSymlinks zfsNone (fun j => j == 1) stW).2
           = List.range' 0 1
       ∧ (add_zip_contents_to_scan_resumable fsAllSymlinks zfsNone (fun _ => false)
            (add_zip_contents_to_scan_resumable fsAllSymlinks zfsNone (fun j => j == 1)
              stW).1).2
           = List.range' 1
             ([(⟨"z1.zip", 0, none, none, some ".zip", none, false, none⟩ : FileInfo),
               ⟨"z2.zip", 0, none, none, some ".zip", none, false, none⟩].length - 1)
       ∧ (add_zip_contents_to_scan_resumable fsAllSymlinks zfsNone (fun _ => false)
            (add_zip_contents_to_scan_resumable fsAllSymlinks zfsNone (fun j => j == 1)
              stW).1).1.pending_zip_info_idx
           = [(⟨"z1.zip", 0, none, none, some ".zip", none, false, none⟩ : FileInfo),
              ⟨"z2.zip", 0, none, none, some ".zip", none, false, none⟩].length
       ∧ List.range' 0 1 ++ List.range' 1
             ([(⟨"z1.zip", 0, none, none, some ".zip", none, false, none⟩ : FileInfo),
               ⟨"z2.zip", 0, none, none, some ".zip", none, false, none⟩].length - 1)
           = List.range' 0
             [(⟨"z1.zip", 0, none, none, some ".zip", none, false, none⟩ : FileInfo),
              ⟨"z2.zip", 0, none, none, some ".zip", none, false, none⟩].length
       ∧ (List.range' 1
             ([(⟨"z1.zip", 0, none, none, some ".zip", none, false, none⟩ : FileInfo),
               ⟨"z2.zip", 0, none, none, some ".zip", none, false, none⟩].length - 1)).Nodup
       ∧ (∀ j, j ∈ List.range' 1
             ([(⟨"z1.zip", 0, none, none, some ".zip", none, false, none⟩ : FileInfo),
               ⟨"z2.zip", 0, none, none, some ".zip", none, false, none⟩].length - 1)
           ↔ 1 ≤ j ∧ j <
             [(⟨"z1.zip", 0, none, none, some ".zip", none, false, none⟩ : FileInfo),
              ⟨"z2.zip", 0, none, none, some ".zip", none, false, none⟩].length)) :=
  cancellation_granularity_and_resume fsAllSymlinks stW ["x", "y", "z"] 1 (fun j => j == 1)
    rfl rfl (by decide) rfl (by decide)
    fsAllSymlinks zfsNone stW
    [⟨"z1.zip", 0, none, none, some ".zip", none, false, none⟩,
     ⟨"z2.zip", 0, none, none, some ".zip", none, false, none⟩] 1 (fun j => j == 1)
    rfl rfl rfl (by decide) rfl (by decide)

end DupliScan
